import Mathlib

/-!
Verification of `mini_weasyprint.py` (a single-file lightweight HTML-to-PDF
converter) against its natural-language specification.

The Python source is shallowly embedded:
  * Python `dict` values are modelled as association lists (`PyDict`) whose
    insertion operation replaces the value of an existing key in place and
    appends new keys at the end, exactly as CPython dicts behave.  A real
    Python dict never holds a duplicate key; on duplicate-free lists the
    map-based replacement below coincides with in-place assignment.
  * Python `str.strip` is `pyStrip` (drop whitespace from both ends) and
    `' '.join` is `pyJoin`.
  * The stateful `MiniHTMLParser` (built on `html.parser.HTMLParser`) is
    modelled as a fold over a stream of tokenizer events; HTML tokenization
    itself is performed by the Python standard library and is outside the
    repository, so events are taken as input.
  * The stateful tree construction (elements are linked into their parent at
    `handle_starttag` time and then mutated through `current_element`) is
    modelled with a stack of frames; a frame's element is appended to the
    parent frame when it is popped (or at end of input), which yields the
    same final tree and the same stack/current-element observations.
-/

namespace MiniWP

/-- orD a b returns a when it is some, otherwise b (Python-style fallback). -/
def orD {β : Type} (a b : Option β) : Option β :=
  match a with
  | some v => some v
  | none => b

@[simp] theorem orD_none {β : Type} (b : Option β) : orD none b = b := rfl

@[simp] theorem orD_some {β : Type} (v : β) (b : Option β) : orD (some v) b = some v := rfl

theorem orD_assoc {β : Type} (a b c : Option β) :
    orD (orD a b) c = orD a (orD b c) := by
  cases a <;> rfl

/-- Association list modelling a Python `dict` with `String` keys. -/
abbrev PyDict (β : Type) := List (String × β)

/-- Python `d[k]` / `d.get(k)`: value of the first (for a real dict, only)
entry with key `k`. -/
def dictGet {β : Type} : PyDict β → String → Option β
  | [], _ => none
  | p :: rest, k => if p.1 = k then some p.2 else dictGet rest k

/-- Value of the last entry with key `k` (used to state last-write-wins). -/
def dictGetLast {β : Type} : PyDict β → String → Option β
  | [], _ => none
  | p :: rest, k =>
    match dictGetLast rest k with
    | some v => some v
    | none => if p.1 = k then some p.2 else none

/-- Python `k in d`. -/
def dictHas {β : Type} : PyDict β → String → Bool
  | [], _ => false
  | p :: rest, k => if p.1 = k then true else dictHas rest k

/-- Python `d[k] = v`: replace the value of an existing key in place, else
append the new pair at the end (CPython dict insertion-order semantics). -/
def dictInsert {β : Type} (d : PyDict β) (k : String) (v : β) : PyDict β :=
  if dictHas d k then d.map (fun p => if p.1 = k then (k, v) else p)
  else d ++ [(k, v)]

/-- Python `a.update(b)`: assign every entry of `b` into `a` in order. -/
def dictUpdate {β : Type} (a b : PyDict β) : PyDict β :=
  b.foldl (fun acc p => dictInsert acc p.1 p.2) a

@[simp] theorem dictUpdate_nil {β : Type} (a : PyDict β) : dictUpdate a [] = a := rfl

theorem dictUpdate_cons {β : Type} (a : PyDict β) (p : String × β) (b : PyDict β) :
    dictUpdate a (p :: b) = dictUpdate (dictInsert a p.1 p.2) b := rfl

theorem dictGet_append {β : Type} (d e : PyDict β) (k : String) :
    dictGet (d ++ e) k = orD (dictGet d k) (dictGet e k) := by
  induction d with
  | nil => simp [dictGet]
  | cons p rest ih =>
    by_cases h : p.1 = k <;> simp [dictGet, h, ih, orD]

theorem dictGetLast_cons {β : Type} (p : String × β) (rest : PyDict β) (k : String) :
    dictGetLast (p :: rest) k =
      orD (dictGetLast rest k) (if p.1 = k then some p.2 else none) := by
  simp only [dictGetLast]
  cases dictGetLast rest k <;> rfl

theorem dictHas_false_get {β : Type} (d : PyDict β) (k : String)
    (h : dictHas d k = false) : dictGet d k = none := by
  induction d with
  | nil => rfl
  | cons p rest ih =>
    by_cases hp : p.1 = k
    · simp [dictHas, hp] at h
    · simp [dictHas, hp] at h
      simp [dictGet, hp, ih h]

theorem dictGet_map_replace_self {β : Type} (d : PyDict β) (k : String) (v : β)
    (h : dictHas d k = true) :
    dictGet (d.map (fun p => if p.1 = k then (k, v) else p)) k = some v := by
  induction d with
  | nil => simp [dictHas] at h
  | cons p rest ih =>
    by_cases hp : p.1 = k
    · simp [dictGet, hp]
    · simp [dictHas, hp] at h
      simp [dictGet, hp, ih h]

theorem dictGet_map_replace_ne {β : Type} (d : PyDict β) (k k' : String) (v : β)
    (hne : k' ≠ k) :
    dictGet (d.map (fun p => if p.1 = k then (k, v) else p)) k' = dictGet d k' := by
  induction d with
  | nil => rfl
  | cons p rest ih =>
    by_cases hp : p.1 = k
    · have : ¬ (k = k') := fun h => hne h.symm
      simp [dictGet, hp, this, ih]
    · simp [dictGet, hp, ih]

theorem dictGet_insert_self {β : Type} (d : PyDict β) (k : String) (v : β) :
    dictGet (dictInsert d k v) k = some v := by
  unfold dictInsert
  by_cases h : dictHas d k = true
  · simp [h, dictGet_map_replace_self d k v h]
  · have hf : dictHas d k = false := by simpa using h
    simp [hf, dictGet_append, dictHas_false_get d k hf, dictGet, orD]

theorem dictGet_insert_ne {β : Type} (d : PyDict β) (k k' : String) (v : β)
    (hne : k' ≠ k) : dictGet (dictInsert d k v) k' = dictGet d k' := by
  unfold dictInsert
  by_cases h : dictHas d k
  · simp [h, dictGet_map_replace_ne d k k' v hne]
  · have : ¬ (k = k') := fun hh => hne hh.symm
    simp [h, dictGet_append, dictGet, this, orD]
    cases dictGet d k' <;> rfl

theorem dictHas_false_getLast {β : Type} (d : PyDict β) (k : String)
    (h : dictHas d k = false) : dictGetLast d k = none := by
  induction d with
  | nil => rfl
  | cons p rest ih =>
    by_cases hp : p.1 = k
    · simp [dictHas, hp] at h
    · simp [dictHas, hp] at h
      simp [dictGetLast_cons, hp, ih h, orD]

theorem dictHas_map_replace {β : Type} (d : PyDict β) (k : String) (v : β) :
    dictHas (d.map (fun p => if p.1 = k then (k, v) else p)) k = dictHas d k := by
  induction d with
  | nil => rfl
  | cons p rest ih =>
    by_cases hp : p.1 = k
    · simp [dictHas, hp]
    · simp [dictHas, hp, ih]

theorem dictGetLast_map_replace_self {β : Type} (d : PyDict β) (k : String) (v : β)
    (h : dictHas d k = true) :
    dictGetLast (d.map (fun p => if p.1 = k then (k, v) else p)) k = some v := by
  induction d with
  | nil => simp [dictHas] at h
  | cons p rest ih =>
    by_cases hr : dictHas rest k = true
    · have := ih hr
      simp only [List.map_cons, dictGetLast_cons, this, orD]
    · have hrf : dictHas rest k = false := by simpa using hr
      have hp : p.1 = k := by
        by_cases hp : p.1 = k
        · exact hp
        · simp [dictHas, hp, hrf] at h
      have hnone : dictGetLast (rest.map (fun p => if p.1 = k then (k, v) else p)) k = none :=
        dictHas_false_getLast _ _ (by rw [dictHas_map_replace]; exact hrf)
      simp [dictGetLast_cons, hnone, hp, orD]

theorem dictGetLast_map_replace_ne {β : Type} (d : PyDict β) (k k' : String) (v : β)
    (hne : k' ≠ k) :
    dictGetLast (d.map (fun p => if p.1 = k then (k, v) else p)) k' = dictGetLast d k' := by
  induction d with
  | nil => rfl
  | cons p rest ih =>
    by_cases hp : p.1 = k
    · have : ¬ (k = k') := fun h => hne h.symm
      simp [dictGetLast_cons, hp, this, ih]
    · simp [dictGetLast_cons, hp, ih]

theorem dictGetLast_append {β : Type} (d e : PyDict β) (k : String) :
    dictGetLast (d ++ e) k = orD (dictGetLast e k) (dictGetLast d k) := by
  induction d with
  | nil =>
    simp only [List.nil_append, dictGetLast]
    cases dictGetLast e k <;> rfl
  | cons p rest ih =>
    simp only [List.cons_append, dictGetLast_cons, ih, orD_assoc]

theorem dictGetLast_insert_self {β : Type} (d : PyDict β) (k : String) (v : β) :
    dictGetLast (dictInsert d k v) k = some v := by
  unfold dictInsert
  by_cases h : dictHas d k
  · simp only [h, if_true]
    exact dictGetLast_map_replace_self d k v h
  · have hf : dictHas d k = false := by simpa using h
    simp [hf, dictGetLast_append, dictGetLast_cons, dictGetLast, orD]

theorem dictGetLast_insert_ne {β : Type} (d : PyDict β) (k k' : String) (v : β)
    (hne : k' ≠ k) : dictGetLast (dictInsert d k v) k' = dictGetLast d k' := by
  unfold dictInsert
  by_cases h : dictHas d k
  · simp only [h, if_true]
    exact dictGetLast_map_replace_ne d k k' v hne
  · have : ¬ (k = k') := fun hh => hne hh.symm
    simp [h, dictGetLast_append, dictGetLast_cons, dictGetLast, this, orD]

theorem dictGet_update {β : Type} (b a : PyDict β) (k : String) :
    dictGet (dictUpdate a b) k = orD (dictGetLast b k) (dictGet a k) := by
  induction b generalizing a with
  | nil => simp [dictGetLast, orD]
  | cons p rest ih =>
    rw [dictUpdate_cons, ih, dictGetLast_cons, orD_assoc]
    congr 1
    by_cases hp : p.1 = k
    · subst hp
      simp [dictGet_insert_self, orD]
    · have : k ≠ p.1 := fun h => hp h.symm
      simp [dictGet_insert_ne a p.1 k p.2 this, hp, orD]

theorem dictGetLast_update {β : Type} (b a : PyDict β) (k : String) :
    dictGetLast (dictUpdate a b) k = orD (dictGetLast b k) (dictGetLast a k) := by
  induction b generalizing a with
  | nil => simp [dictGetLast, orD]
  | cons p rest ih =>
    rw [dictUpdate_cons, ih, dictGetLast_cons, orD_assoc]
    congr 1
    by_cases hp : p.1 = k
    · subst hp
      simp [dictGetLast_insert_self, orD]
    · have : k ≠ p.1 := fun h => hp h.symm
      simp [dictGetLast_insert_ne a p.1 k p.2 this, hp, orD]

/-- Python `s.strip()`: remove leading and trailing whitespace. -/
def pyStrip (s : String) : String :=
  String.mk (((s.data.dropWhile Char.isWhitespace).reverse.dropWhile
    Char.isWhitespace).reverse)

/-- Python `sep.join(parts)`. -/
def pyJoin (sep : String) : List String → String
  | [] => ""
  | [s] => s
  | s :: rest => s ++ sep ++ pyJoin sep rest

/-- True when the string contains at least one non-whitespace character. -/
def hasInk (s : String) : Bool := s.data.any (fun c => !c.isWhitespace)

theorem string_mk_eq_empty_iff (l : List Char) : String.mk l = "" ↔ l = [] := by
  constructor
  · intro h
    have : (String.mk l).data = ("" : String).data := by rw [h]
    simpa using this
  · intro h
    rw [h]

theorem forall_ws_dropWhile_iff (l : List Char) :
    (∀ c ∈ l.dropWhile Char.isWhitespace, c.isWhitespace = true) ↔
      (∀ c ∈ l, c.isWhitespace = true) := by
  constructor
  · intro h c hc
    have := List.takeWhile_append_dropWhile Char.isWhitespace l
    rw [← this] at hc
    rcases List.mem_append.1 hc with h1 | h2
    · exact List.mem_takeWhile_imp h1
    · exact h c h2
  · intro h c hc
    exact h c ((List.dropWhile_sublist _).subset hc)

theorem pyStrip_eq_empty_iff (s : String) :
    pyStrip s = "" ↔ hasInk s = false := by
  unfold pyStrip hasInk
  rw [string_mk_eq_empty_iff, List.reverse_eq_nil_iff, List.dropWhile_eq_nil_iff,
    List.any_eq_false]
  constructor
  · intro h c hc
    have h2 : ∀ d ∈ List.dropWhile Char.isWhitespace s.data, d.isWhitespace = true := by
      intro d hd
      exact h d (List.mem_reverse.2 hd)
    have h3 := (forall_ws_dropWhile_iff s.data).1 h2 c hc
    simp [h3]
  · intro h c hc
    have hall : ∀ d ∈ s.data, d.isWhitespace = true := by
      intro d hd
      have := h d hd
      simpa using this
    exact (forall_ws_dropWhile_iff s.data).2 hall c (List.mem_reverse.1 hc)

theorem head_dropWhile_false {p : Char → Bool} :
    ∀ (l : List Char) (a : Char), (l.dropWhile p).head? = some a → p a = false := by
  intro l
  induction l with
  | nil => intro a h; simp [List.dropWhile] at h
  | cons c rest ih =>
    intro a h
    by_cases hc : p c = true
    · rw [List.dropWhile_cons_of_pos hc] at h
      exact ih a h
    · rw [List.dropWhile_cons_of_neg hc] at h
      simp at h
      subst h
      simpa using hc

theorem getLast?_dropWhile {p : Char → Bool} :
    ∀ (l : List Char), l.dropWhile p ≠ [] →
      (l.dropWhile p).getLast? = l.getLast? := by
  intro l
  induction l with
  | nil => intro h; simp [List.dropWhile] at h
  | cons c rest ih =>
    intro h
    by_cases hc : p c = true
    · rw [List.dropWhile_cons_of_pos hc] at h ⊢
      have hrest : rest ≠ [] := by
        intro hr
        rw [hr] at h
        simp [List.dropWhile] at h
      obtain ⟨b, more, rfl⟩ := List.exists_cons_of_ne_nil hrest
      rw [ih h, List.getLast?_cons_cons]
    · rw [List.dropWhile_cons_of_neg hc]

theorem hasInk_append (s t : String) :
    hasInk (s ++ t) = (hasInk s || hasInk t) := by
  unfold hasInk
  rw [String.data_append, List.any_append]

theorem hasInk_pyJoin (parts : List String)
    (h : ∀ s ∈ parts, hasInk s = true) (hne : parts ≠ []) :
    hasInk (pyJoin " " parts) = true := by
  induction parts with
  | nil => exact absurd rfl hne
  | cons s rest ih =>
    cases rest with
    | nil =>
      simpa [pyJoin] using h s (by simp)
    | cons t more =>
      have hs : hasInk s = true := h s (by simp)
      show hasInk (s ++ " " ++ pyJoin " " (t :: more)) = true
      rw [hasInk_append, hasInk_append, hs]
      rfl

theorem pyStrip_infix (s : String) :
    ∃ pre post, s.data = pre ++ (pyStrip s).data ++ post ∧
      pre.all Char.isWhitespace = true ∧ post.all Char.isWhitespace = true := by
  refine ⟨s.data.takeWhile Char.isWhitespace,
    ((s.data.dropWhile Char.isWhitespace).reverse.takeWhile Char.isWhitespace).reverse,
    ?_, ?_, ?_⟩
  · have h1 := List.takeWhile_append_dropWhile Char.isWhitespace s.data
    have h2 := List.takeWhile_append_dropWhile Char.isWhitespace
      (s.data.dropWhile Char.isWhitespace).reverse
    have h3 : s.data.dropWhile Char.isWhitespace =
        ((s.data.dropWhile Char.isWhitespace).reverse.dropWhile Char.isWhitespace).reverse ++
        ((s.data.dropWhile Char.isWhitespace).reverse.takeWhile Char.isWhitespace).reverse := by
      have := congrArg List.reverse h2
      rw [List.reverse_append, List.reverse_reverse] at this
      exact this.symm
    have hps : (pyStrip s).data =
        ((s.data.dropWhile Char.isWhitespace).reverse.dropWhile Char.isWhitespace).reverse := rfl
    rw [hps, List.append_assoc, ← h3]
    exact h1.symm
  · rw [List.all_eq_true]
    intro x hx
    exact List.mem_takeWhile_imp hx
  · rw [List.all_eq_true]
    intro x hx
    exact List.mem_takeWhile_imp (List.mem_reverse.1 hx)

theorem pyStrip_head_not_ws (s : String) (a : Char)
    (h : (pyStrip s).data.head? = some a) : a.isWhitespace = false := by
  have hd : (pyStrip s).data =
      ((s.data.dropWhile Char.isWhitespace).reverse.dropWhile Char.isWhitespace).reverse := rfl
  rw [hd, List.head?_reverse] at h
  have hne : (s.data.dropWhile Char.isWhitespace).reverse.dropWhile Char.isWhitespace ≠ [] := by
    intro hnil
    rw [hnil] at h
    simp at h
  rw [getLast?_dropWhile _ hne, List.getLast?_reverse] at h
  exact head_dropWhile_false s.data a h

theorem pyStrip_getLast_not_ws (s : String) (a : Char)
    (h : (pyStrip s).data.getLast? = some a) : a.isWhitespace = false := by
  have hd : (pyStrip s).data =
      ((s.data.dropWhile Char.isWhitespace).reverse.dropWhile Char.isWhitespace).reverse := rfl
  rw [hd, List.getLast?_reverse] at h
  exact head_dropWhile_false _ a h

theorem hasInk_pyStrip (s : String) (h : pyStrip s ≠ "") :
    hasInk (pyStrip s) = true := by
  by_contra hcon
  have hfalse : hasInk (pyStrip s) = false := by simpa using hcon
  -- the last character of the reversed inner list is non-whitespace,
  -- yet hfalse says every character of pyStrip s is whitespace
  have hne : ((s.data.dropWhile Char.isWhitespace).reverse.dropWhile
      Char.isWhitespace) ≠ [] := by
    intro hnil
    apply h
    unfold pyStrip
    rw [string_mk_eq_empty_iff, hnil]
    rfl
  obtain ⟨a, t, hat⟩ := List.exists_cons_of_ne_nil hne
  have hhead : ((s.data.dropWhile Char.isWhitespace).reverse.dropWhile
      Char.isWhitespace).head? = some a := by rw [hat]; rfl
  have hnw : a.isWhitespace = false := head_dropWhile_false _ a hhead
  have hmem : a ∈ (pyStrip s).data := by
    unfold pyStrip
    simp only
    rw [hat]
    simp
  unfold hasInk at hfalse
  rw [List.any_eq_false] at hfalse
  have := hfalse a hmem
  simp [hnw] at this

/-! ## CSS parser (`class CSSParser`)

`parse_css` strips CSS comments and extracts rule blocks with the regex
`([^\x7b\x7d]+)\s*\x7b([^\x7b\x7d]+)\x7d`; both steps are performed by
Python's `re` library on the raw text.  The embedding takes the output of
that extraction — the document-ordered list of `(selector, declarations)`
string pairs — as its input and models everything the repository does with
it: stripping the selector, splitting declarations on `;`, splitting each
declaration containing `:` into a stripped property/value pair, and
assigning the resulting dict into the accumulated `self.styles`. -/

/-- A CSS property dict (`style_dict` in the source). -/
abbrev Dict := PyDict String

/-- The accumulated `self.styles` of `CSSParser`: selector to property dict. -/
abbrev Styles := PyDict Dict

/-- Split a character list at every occurrence of `sep`; Python
`s.split(sep)` for a one-character separator (`''.split(';') == ['']`). -/
def splitCharAux (sep : Char) : List Char → List Char → List (List Char)
  | [], acc => [acc.reverse]
  | c :: rest, acc =>
    if c = sep then acc.reverse :: splitCharAux sep rest []
    else splitCharAux sep rest (c :: acc)

/-- Python `s.split(sep)` for a one-character separator. -/
def pySplit (s : String) (sep : Char) : List String :=
  (splitCharAux sep s.data []).map String.mk

/-- Split at the first occurrence of `sep`, or `none` when `sep` is absent;
Python `sep in s` followed by `s.split(sep, 1)`. -/
def splitFirstAux (sep : Char) : List Char → List Char → Option (List Char × List Char)
  | [], _ => none
  | c :: rest, acc =>
    if c = sep then some (acc.reverse, rest)
    else splitFirstAux sep rest (c :: acc)

/-- One declaration: Python `if ':' in decl: prop, value = decl.split(':', 1)`
followed by `strip` on both parts; declarations without `:` are skipped. -/
def parseDeclaration (decl : String) : Option (String × String) :=
  match splitFirstAux ':' decl.data [] with
  | none => none
  | some pv => some (pyStrip (String.mk pv.1), pyStrip (String.mk pv.2))

/-- The inner loop of `parse_css` over `declarations.split(';')`. -/
def parseDeclarations (declText : String) : Dict :=
  (pySplit declText ';').foldl
    (fun d decl =>
      match parseDeclaration decl with
      | some pv => dictInsert d pv.1 pv.2
      | none => d) []

/-- `CSSParser.parse_css`: for each extracted rule block, in document order,
run `self.styles[selector.strip()] = style_dict`. -/
def parse_css (styles : Styles) (ruleBlocks : List (String × String)) : Styles :=
  ruleBlocks.foldl
    (fun st block => dictInsert st (pyStrip block.1) (parseDeclarations block.2))
    styles

theorem parse_css_eq_update (styles : Styles) (ruleBlocks : List (String × String)) :
    parse_css styles ruleBlocks =
      dictUpdate styles
        (ruleBlocks.map (fun block => (pyStrip block.1, parseDeclarations block.2))) := by
  induction ruleBlocks generalizing styles with
  | nil => rfl
  | cons b rest ih =>
    show parse_css (dictInsert styles (pyStrip b.1) (parseDeclarations b.2)) rest = _
    rw [ih, List.map_cons, dictUpdate_cons]

/-- `CSSParser.get_style`: look up the tag selector, then (when the attribute
is truthy) the `.class` selector, then the `#id` selector, merging each found
dict into an initially empty dict with Python `dict.update`. -/
def get_style (styles : Styles) (tag : String) (className : Option String)
    (tagId : Option String) : Dict :=
  let style : Dict := []
  let style :=
    match dictGet styles tag with
    | some s => dictUpdate style s
    | none => style
  let style :=
    match className with
    | some c =>
      if c = "" then style
      else
        match dictGet styles ("." ++ c) with
        | some s => dictUpdate style s
        | none => style
    | none => style
  let style :=
    match tagId with
    | some i =>
      if i = "" then style
      else
        match dictGet styles ("#" ++ i) with
        | some s => dictUpdate style s
        | none => style
    | none => style
  style

/-! ## HTML element tree (`class HTMLElement`)

An element has a tag, an attribute dict, literal content (used only by the
`'text'` sentinel nodes created in `handle_data`), and an ordered child list.
The mutable `parent` back-reference and the `style` dict are not part of the
value: the former is only used implicitly through `current_element`, modelled
by the parser stack below, and the latter is computed by `applyStylesElement`
and never read by the story builder. -/

inductive HTMLElement : Type where
  | mk (tag : String) (attrs : Dict) (content : String) (children : List HTMLElement)

def HTMLElement.tag : HTMLElement → String
  | .mk t _ _ _ => t

def HTMLElement.attrs : HTMLElement → Dict
  | .mk _ a _ _ => a

def HTMLElement.content : HTMLElement → String
  | .mk _ _ c _ => c

def HTMLElement.children : HTMLElement → List HTMLElement
  | .mk _ _ _ cs => cs

/-- The tags the parser never pushes onto the element stack (source line:
`if tag not in ['br', 'hr', 'img', 'input', 'meta', 'link']`). -/
def selfClosingTags : List String := ["br", "hr", "img", "input", "meta", "link"]

mutual

/-- Every descendant (including the element itself) whose tag is one of the
self-closing tags has no children. -/
def selfClosingChildless : HTMLElement → Bool
  | .mk tag _ _ children =>
    ((!decide (tag ∈ selfClosingTags)) || children.isEmpty) &&
      childrenSelfClosingChildless children

def childrenSelfClosingChildless : List HTMLElement → Bool
  | [] => true
  | c :: cs => selfClosingChildless c && childrenSelfClosingChildless cs

end

mutual

/-- Every `'text'`-tagged descendant carries content with at least one
non-whitespace character.  Holds for every tree the parser builds from
events that contain no literal `<text>` start tag, because `handle_data`
only stores stripped, non-blank data. -/
def elementWF : HTMLElement → Bool
  | .mk tag _ content children =>
    (if tag = "text" then hasInk content else true) && childrenElementWF children

def childrenElementWF : List HTMLElement → Bool
  | [] => true
  | c :: cs => elementWF c && childrenElementWF cs

end

/-- Wrapping of an inline child's text in `_get_element_text`:
`strong`/`b` wrap in a bold marker, `em`/`i` in an italic marker. -/
def wrapChildText (tag : String) (t : String) : String :=
  if tag = "strong" ∨ tag = "b" then "<b>" ++ t ++ "</b>"
  else if tag = "em" ∨ tag = "i" then "<i>" ++ t ++ "</i>"
  else t

mutual

/-- `MiniWeasyPrint._get_element_text`: a text node returns its content;
any other element joins its parts with single spaces. -/
def getElementText : HTMLElement → String
  | .mk tag _ content children =>
    if tag = "text" then content
    else pyJoin " " (textParts children)

/-- The `text_parts` list built by the loop in `_get_element_text`: a text
child contributes its content unconditionally; any other child contributes
its (possibly wrapped) recursive text only when that text is non-empty. -/
def textParts : List HTMLElement → List String
  | [] => []
  | c :: cs =>
    match c with
    | .mk ctag _ ccontent _ =>
      if ctag = "text" then ccontent :: textParts cs
      else
        let t := getElementText c
        if t = "" then textParts cs
        else wrapChildText ctag t :: textParts cs

end

/-! ## Stream parser (`class MiniHTMLParser`)

Tokenization is done by the standard-library `html.parser.HTMLParser`; the
repository only implements the three `handle_*` callbacks, so the embedding
folds those callbacks over an event stream.  In Python each element is
appended to `current_element.children` already at `handle_starttag` time and
is then mutated in place while it sits on the stack; the functional model
keeps each open element as a `Frame` (its data plus its completed children
so far) and appends the finished element to the parent frame when it is
popped, or at `finalize`, which produces the same final tree.  The Python
`current_element` is always `element_stack[-1]` (both are set together at
every assignment site), so the model represents it as the top frame. -/

structure Frame : Type where
  tag : String
  attrs : Dict
  content : String
  children : List HTMLElement

/-- The element stack: the top frame is `current_element`; `rest` holds the
frames below it, with the synthetic `document` root at the bottom. -/
structure ParserState : Type where
  top : Frame
  rest : List Frame

def Frame.addChild (f : Frame) (c : HTMLElement) : Frame :=
  ⟨f.tag, f.attrs, f.content, f.children ++ [c]⟩

def Frame.toElement (f : Frame) : HTMLElement :=
  .mk f.tag f.attrs f.content f.children

/-- `MiniHTMLParser.__init__`: document root, stack `[document]`. -/
def initState : ParserState := ⟨⟨"document", [], "", []⟩, []⟩

/-- Python `dict(attrs)` on the attribute pair list. -/
def dictOfPairs (l : List (String × String)) : Dict := dictUpdate [] l

/-- `handle_starttag`: link a fresh element into the current element's
children; push it (making it current) unless its tag is self-closing. -/
def handle_starttag (st : ParserState) (tag : String)
    (attrs : List (String × String)) : ParserState :=
  if tag ∈ selfClosingTags then
    ⟨st.top.addChild (.mk tag (dictOfPairs attrs) "" []), st.rest⟩
  else
    ⟨⟨tag, dictOfPairs attrs, "", []⟩, st.top :: st.rest⟩

/-- `handle_endtag`: pop only when the stack holds more than the root and
the current element's tag equals the closing tag; otherwise do nothing.
The callback is a total function: no input raises. -/
def handle_endtag (st : ParserState) (tag : String) : ParserState :=
  match st.rest with
  | [] => st
  | parent :: rest =>
    if st.top.tag = tag then ⟨parent.addChild st.top.toElement, rest⟩
    else st

/-- `handle_data`: if the stripped data is non-empty, add a `'text'` node
holding the stripped data to the current element. -/
def handle_data (st : ParserState) (data : String) : ParserState :=
  if pyStrip data = "" then st
  else ⟨st.top.addChild (.mk "text" [] (pyStrip data) []), st.rest⟩

/-- One tokenizer callback event delivered by `html.parser.HTMLParser`. -/
inductive HTMLEvent : Type where
  | starttag (tag : String) (attrs : List (String × String))
  | endtag (tag : String)
  | data (s : String)

def stepEvent (st : ParserState) : HTMLEvent → ParserState
  | .starttag tag attrs => handle_starttag st tag attrs
  | .endtag tag => handle_endtag st tag
  | .data s => handle_data st s

/-- Feed a whole event stream from the initial state. -/
def runEvents (events : List HTMLEvent) : ParserState :=
  events.foldl stepEvent initState

def finalizeAux : Frame → List Frame → HTMLElement
  | top, [] => top.toElement
  | top, parent :: rest => finalizeAux (parent.addChild top.toElement) rest

/-- The `document` tree observable after feeding: elements still open on the
stack are already linked into their parents (Python links them eagerly at
`handle_starttag`), which the model realizes by folding the stack down. -/
def finalizeState (st : ParserState) : HTMLElement :=
  finalizeAux st.top st.rest

/-- All frames of the stack, top first. -/
def framesOf (st : ParserState) : List Frame := st.top :: st.rest

/-! ## Style application (`MiniWeasyPrint.apply_styles` and defaults) -/

/-- `MiniWeasyPrint.default_styles`, built in `__init__`; the font name
depends on whether a CJK font was registered at startup. -/
def default_styles (koreanFontRegistered : Bool) : Styles :=
  let fontName := if koreanFontRegistered then "NanumGothic" else "Helvetica"
  [("h1", [("font-size", "24pt"), ("font-weight", "bold"),
           ("margin-bottom", "12pt"), ("font-name", fontName)]),
   ("h2", [("font-size", "20pt"), ("font-weight", "bold"),
           ("margin-bottom", "10pt"), ("font-name", fontName)]),
   ("h3", [("font-size", "16pt"), ("font-weight", "bold"),
           ("margin-bottom", "8pt"), ("font-name", fontName)]),
   ("h4", [("font-size", "14pt"), ("font-weight", "bold"),
           ("margin-bottom", "6pt"), ("font-name", fontName)]),
   ("h5", [("font-size", "12pt"), ("font-weight", "bold"),
           ("margin-bottom", "4pt"), ("font-name", fontName)]),
   ("h6", [("font-size", "10pt"), ("font-weight", "bold"),
           ("margin-bottom", "2pt"), ("font-name", fontName)]),
   ("p", [("font-size", "12pt"), ("margin-bottom", "6pt"),
          ("font-name", fontName)]),
   ("div", [("font-size", "12pt"), ("font-name", fontName)]),
   ("span", [("font-size", "12pt"), ("font-name", fontName)])]

/-- The per-element body of `MiniWeasyPrint.apply_styles`: starting from the
empty `element.style`, merge the default style for the tag when present,
then merge `get_style(tag, attrs.get('class'), attrs.get('id'))`.
(`apply_styles` runs this on every element of the tree recursively; the
resulting dict is stored on the element and never read by the story
builder.) -/
def applyStylesElement (defaults : Styles) (styles : Styles) (e : HTMLElement) : Dict :=
  let style : Dict := []
  let style :=
    match dictGet defaults e.tag with
    | some d => dictUpdate style d
    | none => style
  dictUpdate style (get_style styles e.tag (dictGet e.attrs "class") (dictGet e.attrs "id"))

/-- Merging one optional style layer over an accumulated dict; the spec's
"each later layer overwrites overlapping property keys". -/
def specLayer (acc : Dict) (layer : Option Dict) : Dict :=
  match layer with
  | some d => dictUpdate acc d
  | none => acc

/-- The class-selector rule an element picks up: a truthy `class` attribute
selects the `.class` rule when one exists. -/
def classSelectorRule (styles : Styles) (className : Option String) : Option Dict :=
  match className with
  | some c => if c = "" then none else dictGet styles ("." ++ c)
  | none => none

/-- The id-selector rule an element picks up: a truthy `id` attribute
selects the `#id` rule when one exists. -/
def idSelectorRule (styles : Styles) (tagId : Option String) : Option Dict :=
  match tagId with
  | some i => if i = "" then none else dictGet styles ("#" ++ i)
  | none => none

/-- Resolved style as the specification words it: apply in order the
built-in tag default, the tag-selector rule, the class-selector rule and
the id-selector rule, each later layer overwriting overlapping keys.
(Comparator definition for the refinement claim C3, written from the
spec text, to be proved equivalent to `applyStylesElement`.) -/
def specResolvedStyle (defaults : Styles) (styles : Styles) (e : HTMLElement) : Dict :=
  specLayer (specLayer (specLayer (specLayer [] (dictGet defaults e.tag))
    (dictGet styles e.tag))
    (classSelectorRule styles (dictGet e.attrs "class")))
    (idSelectorRule styles (dictGet e.attrs "id"))

/-! ## Story builder (`MiniWeasyPrint._add_elements_to_story`)

The reportlab flowables appended to `story` are modelled by `Flowable`:
`Paragraph(text, style)` keeps the text, the base sample-stylesheet style
name, and whether the Korean `ParagraphStyle` wrapper (same base style,
NanumGothic font) was used; `Spacer(w, h)` keeps both arguments.  No other
flowable kind is ever created by the source — in particular no horizontal
rule drawing primitive exists. -/

inductive Flowable : Type where
  | paragraph (text : String) (styleName : String) (koreanFont : Bool)
  | spacer (width : Nat) (height : Nat)
  deriving DecidableEq

def headingTags : List String := ["h1", "h2", "h3", "h4", "h5", "h6"]

/-- `int(element.tag[1])` for the heading branch. -/
def headingLevel (tag : String) : Nat :=
  ((tag.data.get? 1).getD '0').toNat - '0'.toNat

mutual

/-- `_add_elements_to_story(element, story, styles)`, modelled as the list
of flowables the call appends to `story`.  A `'text'` element returns its
content to the caller and appends nothing; headings and paragraphs append a
paragraph and a trailing spacer when their text is non-empty; `br` appends
one spacer, `hr` two; every other element recurses into its children. -/
def addElementsToStory (kf : Bool) : HTMLElement → List Flowable
  | e@(.mk tag _ _ children) =>
    if tag = "text" then []
    else if tag ∈ headingTags then
      if getElementText e = "" then []
      else
        [Flowable.paragraph (getElementText e)
          (if headingLevel tag ≤ 6 then "Heading" ++ toString (headingLevel tag)
           else "Heading6") kf,
         Flowable.spacer 1 12]
    else if tag = "p" then
      if getElementText e = "" then []
      else [Flowable.paragraph (getElementText e) "Normal" kf, Flowable.spacer 1 6]
    else if tag = "br" then [Flowable.spacer 1 12]
    else if tag = "hr" then [Flowable.spacer 1 6, Flowable.spacer 1 6]
    else addChildrenToStory kf children

def addChildrenToStory (kf : Bool) : List HTMLElement → List Flowable
  | [] => []
  | c :: cs => addElementsToStory kf c ++ addChildrenToStory kf cs

end

/-! ## Conversion entry points (`class MiniWeasyPrint`) -/

/-- The instance state that survives between conversion calls: the shared
`CSSParser`'s accumulated `styles` and the startup font flag.  (`page_size`
and `margin` feed only the reportlab document template, never the story;
`html_parser` is replaced by a fresh `MiniHTMLParser` on every call.) -/
structure ConverterState : Type where
  cssStyles : Styles
  koreanFontRegistered : Bool

/-- `MiniWeasyPrint.__init__`: empty CSS rule set; the font flag is set by
`_register_korean_fonts` from the host system's font files, taken as a
parameter. -/
def converterInit (koreanFontRegistered : Bool) : ConverterState :=
  ⟨[], koreanFontRegistered⟩

/-- One HTML input, as the external collaborators hand it to the
repository's code: the `<style>` blocks extracted by regex (each already
split into rule pairs, see `parse_css`) and the tokenizer's event stream
for the document. -/
structure HtmlInput : Type where
  cssBlocks : List (List (String × String))
  events : List HTMLEvent

/-- `MiniWeasyPrint.parse_html`: feed every `<style>` block to the shared
CSS parser (accumulating into the instance's `styles`), then parse the
document with a fresh `MiniHTMLParser`. -/
def parse_html (m : ConverterState) (input : HtmlInput) :
    ConverterState × HTMLElement :=
  (⟨input.cssBlocks.foldl parse_css m.cssStyles, m.koreanFontRegistered⟩,
   finalizeState (runEvents input.events))

/-- `MiniWeasyPrint.html_to_pdf`: parse, apply styles, build the story.
`apply_styles` mutates only the per-call element tree's `style` dicts,
which `_add_elements_to_story` never reads, so the story depends only on
the fresh parse and the font flag.  Returns the instance state after the
call together with the story handed to `doc.build`. -/
def html_to_pdf (m : ConverterState) (input : HtmlInput) :
    ConverterState × List Flowable :=
  let parsed := parse_html m input
  (parsed.1, addElementsToStory parsed.1.koreanFontRegistered parsed.2)

/-! ## Further dictionary helper lemmas -/

@[simp] theorem dictGet_nil {β : Type} (k : String) : dictGet ([] : PyDict β) k = none := rfl

@[simp] theorem dictGetLast_nil {β : Type} (k : String) :
    dictGetLast ([] : PyDict β) k = none := rfl

@[simp] theorem orD_none_right {β : Type} (a : Option β) : orD a none = a := by
  cases a <;> rfl

/-! ## Claim C2: how repeated selectors combine in `parse_css` -/

/-- C2 counterexample: with `p \x7b color: black; margin-bottom: 9pt \x7d`
followed by `p \x7b color: blue \x7d`, the accumulated rule set maps `p` to
exactly `color: blue` — the `margin-bottom` declared only by the earlier
rule is NOT preserved, refuting per-property last-write-wins. -/
theorem parse_css_drops_earlier_properties :
    dictGet (parse_css []
      [("p", "color: black; margin-bottom: 9pt"), ("p", "color: blue")]) "p" =
      some [("color", "blue")] ∧
    (dictGet (parse_css []
      [("p", "color: black; margin-bottom: 9pt"), ("p", "color: blue")]) "p").bind
      (fun d => dictGet d "margin-bottom") = none := by
  constructor
  · decide
  · decide

/-- C2 (amended): later rules with the same (stripped) selector replace the
earlier rule's declaration dict wholesale — the accumulated entry for a
selector is exactly the parsed declarations of the LAST rule block using
that selector (falling back to whatever the rule set already held):
last-write-wins per rule, not per property. -/
theorem parse_css_last_rule_wins (styles : Styles)
    (ruleBlocks : List (String × String)) (sel : String) :
    dictGet (parse_css styles ruleBlocks) sel =
      orD (dictGetLast
            (ruleBlocks.map (fun b => (pyStrip b.1, parseDeclarations b.2))) sel)
          (dictGet styles sel) := by
  rw [parse_css_eq_update, dictGet_update]

/-! ## Claim C1: what crosses between conversion calls -/

/-- C1 (amended, part 1): the story produced for input `b` is the same
whether or not another input `a` was converted on the same instance first —
the story is a function of `b`'s fresh parse and the init-time font flag
only, because `_add_elements_to_story` never reads the resolved styles. -/
theorem story_unaffected_by_prior_conversion (m : ConverterState)
    (a b : HtmlInput) :
    (html_to_pdf (html_to_pdf m a).1 b).2 = (html_to_pdf m b).2 := rfl

/-- C1 counterexample (part 2): mutable state DOES cross conversion calls —
converting a document whose `<style>` block declares `p \x7b color: red \x7d`
leaves that rule in the shared `CSSParser`, where the next call's
`get_style` observes it, refuting "no accumulated CSS rules in the shared
CSSParser cross from one conversion call to the next". -/
theorem css_rules_cross_conversion_calls :
    (html_to_pdf (converterInit false) ⟨[[("p", "color: red")]], []⟩).1.cssStyles ≠
      (converterInit false).cssStyles ∧
    get_style (html_to_pdf (converterInit false)
      ⟨[[("p", "color: red")]], []⟩).1.cssStyles "p" none none = [("color", "red")] ∧
    get_style (converterInit false).cssStyles "p" none none = [] := by
  refine ⟨by decide, by decide, rfl⟩

/-! ## Claim C5: `handle_data` whitespace handling -/

/-- C5 counterexample: the stored text node for data `"a  b"` keeps the
internal run of two spaces verbatim — internal whitespace is NOT collapsed
to a single space. -/
theorem handle_data_keeps_internal_whitespace :
    (handle_data initState "a  b").top.children =
      [HTMLElement.mk "text" [] "a  b" []] ∧
    ("a  b" : String) ≠ "a b" := by
  exact ⟨rfl, by decide⟩

/-- C5 (amended): for non-blank data the parser stores `data.strip()`:
leading and trailing whitespace is removed (the stored content is a
contiguous infix of the data, the removed prefix/suffix are all-whitespace,
and the stored content neither starts nor ends with whitespace), while the
interior — including any runs of consecutive whitespace — is preserved
verbatim. -/
theorem handle_data_strips_ends_only (st : ParserState) (data : String)
    (h : pyStrip data ≠ "") :
    handle_data st data =
      ⟨st.top.addChild (HTMLElement.mk "text" [] (pyStrip data) []), st.rest⟩ ∧
    (∃ pre post, data.data = pre ++ (pyStrip data).data ++ post ∧
      pre.all Char.isWhitespace = true ∧ post.all Char.isWhitespace = true) ∧
    (∀ a, (pyStrip data).data.head? = some a → a.isWhitespace = false) ∧
    (∀ a, (pyStrip data).data.getLast? = some a → a.isWhitespace = false) := by
  refine ⟨?_, pyStrip_infix data, pyStrip_head_not_ws data, pyStrip_getLast_not_ws data⟩
  unfold handle_data
  rw [if_neg h]

/-- Witness for C5's amended theorem at the concrete data `" a  b "`. -/
theorem handle_data_strips_ends_only_witness :
    handle_data initState " a  b " =
      ⟨Frame.addChild initState.top (HTMLElement.mk "text" [] (pyStrip " a  b ") []),
        initState.rest⟩ ∧
    (∃ pre post, (" a  b " : String).data = pre ++ (pyStrip " a  b ").data ++ post ∧
      pre.all Char.isWhitespace = true ∧ post.all Char.isWhitespace = true) ∧
    (∀ a, (pyStrip " a  b ").data.head? = some a → a.isWhitespace = false) ∧
    (∀ a, (pyStrip " a  b ").data.getLast? = some a → a.isWhitespace = false) :=
  handle_data_strips_ends_only initState " a  b " (by decide)

/-! ## Claim C7: heading tags above level 6 -/

/-- C7: an `h7` element is NOT laid out as a level-6 heading: the heading
branch of `_add_elements_to_story` only matches `h1`–`h6`, so `h7` falls to
the generic-container branch, whose recursion appends nothing for the
direct text child — while an actual `h6` with the same text produces a
`Heading6` paragraph and its trailing spacer.  (The `'Heading6'` clamp
expression in the source is unreachable.) -/
theorem h7_not_treated_as_heading6 :
    addElementsToStory false
      (HTMLElement.mk "h7" [] "" [HTMLElement.mk "text" [] "Hello" []]) = [] ∧
    addElementsToStory false
      (HTMLElement.mk "h6" [] "" [HTMLElement.mk "text" [] "Hello" []]) =
      [Flowable.paragraph "Hello" "Heading6" false, Flowable.spacer 1 12] := by
  constructor
  · decide
  · decide

/-! ## Claim C8: `hr` handling -/

/-- C8: every `hr` element appends exactly two `Spacer(1, 6)` gaps in
immediate sequence, and nothing else — in particular no rule line (the
`Flowable` type of everything the source can append has no line/rule
variant at all). -/
theorem hr_appends_two_gaps (kf : Bool) (attrs : Dict) (content : String)
    (children : List HTMLElement) :
    addElementsToStory kf (HTMLElement.mk "hr" attrs content children) =
      [Flowable.spacer 1 6, Flowable.spacer 1 6] := by
  simp [addElementsToStory, headingTags]

/-! ## Claim C3: specificity order of style resolution -/

theorem get_style_eq_layers (styles : Styles) (tag : String)
    (className tagId : Option String) :
    get_style styles tag className tagId =
      specLayer (specLayer (specLayer [] (dictGet styles tag))
        (classSelectorRule styles className)) (idSelectorRule styles tagId) := by
  unfold get_style classSelectorRule idSelectorRule specLayer
  dsimp only
  repeat' split
  all_goals try (injections; subst_vars)
  all_goals first | rfl | contradiction

theorem applyStylesElement_eq_update (defaults styles : Styles) (e : HTMLElement) :
    applyStylesElement defaults styles e =
      dictUpdate (specLayer [] (dictGet defaults e.tag))
        (get_style styles e.tag (dictGet e.attrs "class") (dictGet e.attrs "id")) := by
  unfold applyStylesElement specLayer
  cases dictGet defaults e.tag <;> rfl

theorem update_layers_get (base : Dict) (t c i : Option Dict) (k : String) :
    dictGet (dictUpdate base (specLayer (specLayer (specLayer [] t) c) i)) k =
      dictGet (specLayer (specLayer (specLayer base t) c) i) k := by
  cases t <;> cases c <;> cases i <;>
    simp [specLayer, dictGet_update, dictGetLast_update, orD_assoc]

/-- C3: the effective style written by `apply_styles` equals, property by
property, the spec-side merge of the four layers in ascending specificity
order (built-in tag default, then tag rule, then class rule, then id rule,
each later layer overwriting overlapping keys); in particular, with
`p \x7b color: black \x7d` and `.note \x7b color: blue \x7d` applied to
`<p class="note">`, the resolved `color` is `blue`. -/
theorem apply_styles_specificity_order :
    (∀ (defaults styles : Styles) (e : HTMLElement) (k : String),
      dictGet (applyStylesElement defaults styles e) k =
        dictGet (specResolvedStyle defaults styles e) k) ∧
    dictGet (applyStylesElement (default_styles false)
      (parse_css [] [("p", "color: black"), (".note", "color: blue")])
      (HTMLElement.mk "p" [("class", "note")] "" [])) "color" = some "blue" := by
  constructor
  · intro defaults styles e k
    rw [applyStylesElement_eq_update, get_style_eq_layers]
    unfold specResolvedStyle
    exact update_layers_get (specLayer [] (dictGet defaults e.tag))
      (dictGet styles e.tag)
      (classSelectorRule styles (dictGet e.attrs "class"))
      (idSelectorRule styles (dictGet e.attrs "id")) k
  · decide

/-! ## Claim C9: `handle_endtag` behavior -/

/-- C9: `handle_endtag` is a total function (no input raises), and it is
fully characterized as follows: when the stack holds only the document root
or the closing tag differs from the current element's tag, the state —
element stack and current element alike — is returned completely unchanged;
otherwise exactly the top element is popped and the frame below it (which,
as in the Python original, already carries the closed element among its
children) becomes both the new stack top and the current element. -/
theorem handle_endtag_characterization (st : ParserState) (tag : String) :
    (st.rest = [] ∨ st.top.tag ≠ tag → handle_endtag st tag = st) ∧
    (∀ parent rest, st.rest = parent :: rest → st.top.tag = tag →
      handle_endtag st tag = ⟨parent.addChild st.top.toElement, rest⟩) := by
  constructor
  · rintro (h | h)
    · unfold handle_endtag
      rw [h]
    · unfold handle_endtag
      cases hr : st.rest with
      | nil => rfl
      | cons p r =>
        dsimp only
        rw [if_neg h]
  · intro parent rest hr htag
    unfold handle_endtag
    rw [hr]
    dsimp only
    rw [if_pos htag]

/-- Witness for C9 at concrete states: a mismatched close leaves the state
unchanged; a matching close pops exactly the top element. -/
theorem handle_endtag_characterization_witness :
    handle_endtag ⟨⟨"p", [], "", []⟩, [⟨"document", [], "", []⟩]⟩ "div" =
      ⟨⟨"p", [], "", []⟩, [⟨"document", [], "", []⟩]⟩ ∧
    handle_endtag ⟨⟨"p", [], "", []⟩, [⟨"document", [], "", []⟩]⟩ "p" =
      ⟨⟨"document", [], "", [HTMLElement.mk "p" [] "" []]⟩, []⟩ := by
  constructor
  · exact (handle_endtag_characterization _ _).1 (Or.inr (by decide))
  · exact (handle_endtag_characterization
      ⟨⟨"p", [], "", []⟩, [⟨"document", [], "", []⟩]⟩ "p").2
      ⟨"document", [], "", []⟩ [] rfl rfl

/-! ## Claim C10: parser stack invariant -/

/-- The invariant maintained by every callback: the bottom frame is the
document root, no frame on the stack has a self-closing tag, and every
completed element accumulated anywhere in the stack keeps all its
self-closing-tagged descendants childless. -/
def stackInvariant (st : ParserState) : Prop :=
  (framesOf st).getLast?.map Frame.tag = some "document" ∧
  (∀ f ∈ framesOf st, f.tag ∉ selfClosingTags) ∧
  (∀ f ∈ framesOf st, childrenSelfClosingChildless f.children = true)

theorem childrenSCC_append (l₁ l₂ : List HTMLElement) :
    childrenSelfClosingChildless (l₁ ++ l₂) =
      (childrenSelfClosingChildless l₁ && childrenSelfClosingChildless l₂) := by
  induction l₁ with
  | nil => simp [childrenSelfClosingChildless]
  | cons c cs ih =>
    simp [childrenSelfClosingChildless, ih, Bool.and_assoc]

theorem scc_childless (t : String) (a : Dict) (c : String) :
    selfClosingChildless (.mk t a c []) = true := by
  simp [selfClosingChildless, childrenSelfClosingChildless]

theorem getLast_tag_top_irrelevant (t₁ t₂ : Frame) (rest : List Frame)
    (htag : t₁.tag = t₂.tag) :
    ((t₂ :: rest).getLast?).map Frame.tag = ((t₁ :: rest).getLast?).map Frame.tag := by
  cases rest with
  | nil => simp [htag]
  | cons r rs => rw [List.getLast?_cons_cons, List.getLast?_cons_cons]

theorem stackInvariant_init : stackInvariant initState := by
  refine ⟨rfl, ?_, ?_⟩
  · intro f hf
    simp only [framesOf, initState, List.mem_singleton] at hf
    subst hf
    decide
  · intro f hf
    simp only [framesOf, initState, List.mem_singleton] at hf
    subst hf
    rfl

theorem stackInvariant_step (st : ParserState) (ev : HTMLEvent)
    (h : stackInvariant st) : stackInvariant (stepEvent st ev) := by
  obtain ⟨h1, h2, h3⟩ := h
  have htop_mem : st.top ∈ framesOf st := List.mem_cons_self _ _
  cases ev with
  | data s =>
    show stackInvariant (handle_data st s)
    unfold handle_data
    by_cases hs : pyStrip s = ""
    · rw [if_pos hs]
      exact ⟨h1, h2, h3⟩
    · rw [if_neg hs]
      refine ⟨?_, ?_, ?_⟩
      · exact (getLast_tag_top_irrelevant st.top
          (st.top.addChild (HTMLElement.mk "text" [] (pyStrip s) [])) st.rest rfl).trans h1
      · intro f hf
        rcases List.mem_cons.1 hf with hft | hfr
        · subst hft
          exact h2 st.top htop_mem
        · exact h2 f (List.mem_cons_of_mem _ hfr)
      · intro f hf
        rcases List.mem_cons.1 hf with hft | hfr
        · subst hft
          show childrenSelfClosingChildless (st.top.children ++ [_]) = true
          rw [childrenSCC_append]
          simp [h3 st.top htop_mem, scc_childless, childrenSelfClosingChildless]
        · exact h3 f (List.mem_cons_of_mem _ hfr)
  | starttag tag attrs =>
    show stackInvariant (handle_starttag st tag attrs)
    unfold handle_starttag
    by_cases hsc : tag ∈ selfClosingTags
    · rw [if_pos hsc]
      refine ⟨?_, ?_, ?_⟩
      · exact (getLast_tag_top_irrelevant st.top
          (st.top.addChild (HTMLElement.mk tag (dictOfPairs attrs) "" [])) st.rest rfl).trans h1
      · intro f hf
        rcases List.mem_cons.1 hf with hft | hfr
        · subst hft
          exact h2 st.top htop_mem
        · exact h2 f (List.mem_cons_of_mem _ hfr)
      · intro f hf
        rcases List.mem_cons.1 hf with hft | hfr
        · subst hft
          show childrenSelfClosingChildless (st.top.children ++ [_]) = true
          rw [childrenSCC_append]
          simp [h3 st.top htop_mem, scc_childless, childrenSelfClosingChildless]
        · exact h3 f (List.mem_cons_of_mem _ hfr)
    · rw [if_neg hsc]
      refine ⟨?_, ?_, ?_⟩
      · show ((⟨tag, dictOfPairs attrs, "", []⟩ :: st.top :: st.rest).getLast?).map
          Frame.tag = some "document"
        rw [List.getLast?_cons_cons]
        exact h1
      · intro f hf
        rcases List.mem_cons.1 hf with hft | hfr
        · subst hft
          exact hsc
        · exact h2 f hfr
      · intro f hf
        rcases List.mem_cons.1 hf with hft | hfr
        · subst hft
          rfl
        · exact h3 f hfr
  | endtag tag =>
    show stackInvariant (handle_endtag st tag)
    unfold handle_endtag
    cases hr : st.rest with
    | nil => exact ⟨h1, h2, h3⟩
    | cons parent rs =>
      dsimp only
      by_cases htag : st.top.tag = tag
      · rw [if_pos htag]
        have hparent_mem : parent ∈ framesOf st := by
          rw [framesOf, hr]
          exact List.mem_cons_of_mem _ (List.mem_cons_self _ _)
        refine ⟨?_, ?_, ?_⟩
        · have hstep : ((parent.addChild st.top.toElement :: rs).getLast?).map Frame.tag =
              ((parent :: rs).getLast?).map Frame.tag :=
            getLast_tag_top_irrelevant parent (parent.addChild st.top.toElement) rs rfl
          rw [framesOf] at h1
          rw [hr, List.getLast?_cons_cons] at h1
          exact hstep.trans h1
        · intro f hf
          rcases List.mem_cons.1 hf with hft | hfr
          · subst hft
            exact h2 parent hparent_mem
          · apply h2
            rw [framesOf, hr]
            exact List.mem_cons_of_mem _ (List.mem_cons_of_mem _ hfr)
        · intro f hf
          rcases List.mem_cons.1 hf with hft | hfr
          · subst hft
            show childrenSelfClosingChildless
              (parent.children ++ [st.top.toElement]) = true
            rw [childrenSCC_append]
            have hsc_elem : selfClosingChildless st.top.toElement = true := by
              show (((!decide (st.top.tag ∈ selfClosingTags)) ||
                st.top.children.isEmpty) &&
                childrenSelfClosingChildless st.top.children) = true
              have := h2 st.top htop_mem
              simp [this, h3 st.top htop_mem]
            simp [h3 parent hparent_mem, hsc_elem, childrenSelfClosingChildless]
          · apply h3
            rw [framesOf, hr]
            exact List.mem_cons_of_mem _ (List.mem_cons_of_mem _ hfr)
      · rw [if_neg htag]
        exact ⟨h1, h2, h3⟩

theorem stackInvariant_run (events : List HTMLEvent) :
    stackInvariant (runEvents events) := by
  have hgen : ∀ (evs : List HTMLEvent) (st : ParserState),
      stackInvariant st → stackInvariant (evs.foldl stepEvent st) := by
    intro evs
    induction evs with
    | nil => intro st h; exact h
    | cons e es ih =>
      intro st h
      exact ih _ (stackInvariant_step st e h)
  exact hgen events initState stackInvariant_init

theorem finalizeAux_scc :
    ∀ (rest : List Frame) (top : Frame),
      top.tag ∉ selfClosingTags → childrenSelfClosingChildless top.children = true →
      (∀ f ∈ rest, f.tag ∉ selfClosingTags ∧
        childrenSelfClosingChildless f.children = true) →
      selfClosingChildless (finalizeAux top rest) = true := by
  intro rest
  induction rest with
  | nil =>
    intro top h1 h2 _
    show (((!decide (top.tag ∈ selfClosingTags)) || top.children.isEmpty) &&
      childrenSelfClosingChildless top.children) = true
    simp [h1, h2]
  | cons parent rs ih =>
    intro top h1 h2 hrest
    show selfClosingChildless (finalizeAux (parent.addChild top.toElement) rs) = true
    obtain ⟨hp1, hp2⟩ := hrest parent (List.mem_cons_self _ _)
    apply ih
    · exact hp1
    · show childrenSelfClosingChildless (parent.children ++ [top.toElement]) = true
      rw [childrenSCC_append]
      have hsc_elem : selfClosingChildless top.toElement = true := by
        show (((!decide (top.tag ∈ selfClosingTags)) || top.children.isEmpty) &&
          childrenSelfClosingChildless top.children) = true
        simp [h1, h2]
      simp [hp2, hsc_elem, childrenSelfClosingChildless]
    · intro f hf
      exact hrest f (List.mem_cons_of_mem _ hf)

/-- C10: after any event sequence, the element stack is non-empty with the
document root at the bottom, the current element is its top (in the model
the two are identified because every assignment site of the source sets
them together), no frame on the stack carries a self-closing tag — those
elements are never pushed — and consequently in the resulting document
tree every element tagged `br`/`hr`/`img`/`input`/`meta`/`link` is
childless. -/
theorem parser_stack_invariant (events : List HTMLEvent) :
    framesOf (runEvents events) ≠ [] ∧
    (framesOf (runEvents events)).getLast?.map Frame.tag = some "document" ∧
    (∀ f ∈ framesOf (runEvents events), f.tag ∉ selfClosingTags) ∧
    selfClosingChildless (finalizeState (runEvents events)) = true := by
  obtain ⟨h1, h2, h3⟩ := stackInvariant_run events
  refine ⟨by simp [framesOf], h1, h2, ?_⟩
  unfold finalizeState
  apply finalizeAux_scc
  · exact h2 _ (List.mem_cons_self _ _)
  · exact h3 _ (List.mem_cons_self _ _)
  · intro f hf
    exact ⟨h2 f (List.mem_cons_of_mem _ hf), h3 f (List.mem_cons_of_mem _ hf)⟩

/-- Witness for C10 at a concrete event sequence containing a self-closing
start tag: the bottom of the stack is still the document and the top frame
(a `div`, since the `br` was never pushed) is not self-closing-tagged. -/
theorem parser_stack_invariant_witness :
    (framesOf (runEvents [HTMLEvent.starttag "div" [],
      HTMLEvent.starttag "br" []])).getLast?.map Frame.tag = some "document" ∧
    Frame.tag (runEvents [HTMLEvent.starttag "div" [],
      HTMLEvent.starttag "br" []]).top ∉ selfClosingTags := by
  constructor
  · exact (parser_stack_invariant _).2.1
  · exact (parser_stack_invariant _).2.2.1 _ (List.mem_cons_self _ _)

/-! ## Claim C4: empty blocks -/

theorem bandLeft {a b : Bool} (h : (a && b) = true) : a = true := by
  simp only [Bool.and_eq_true] at h
  exact h.1

theorem bandRight {a b : Bool} (h : (a && b) = true) : b = true := by
  simp only [Bool.and_eq_true] at h
  exact h.2

theorem hasInk_wrap (ctag t : String) (h : hasInk t = true) :
    hasInk (wrapChildText ctag t) = true := by
  unfold wrapChildText
  split
  · rw [hasInk_append, hasInk_append]
    simp [h]
  · split
    · rw [hasInk_append, hasInk_append]
      simp [h]
    · exact h

mutual

theorem getElementText_hasInk (e : HTMLElement) (hwf : elementWF e = true)
    (hne : getElementText e ≠ "") : hasInk (getElementText e) = true := by
  cases e with
  | mk tag attrs content children =>
    have hwf2 : childrenElementWF children = true := by
      have := hwf
      unfold elementWF at this
      exact bandRight this
    by_cases ht : tag = "text"
    · have hcontent : getElementText (.mk tag attrs content children) = content := by
        unfold getElementText
        rw [if_pos ht]
      rw [hcontent]
      have := hwf
      unfold elementWF at this
      have h1 := bandLeft this
      rw [if_pos ht] at h1
      exact h1
    · have hjoin : getElementText (.mk tag attrs content children) =
          pyJoin " " (textParts children) := by
        unfold getElementText
        rw [if_neg ht]
      rw [hjoin] at hne ⊢
      have hparts : textParts children ≠ [] := by
        intro hp
        rw [hp] at hne
        exact hne rfl
      exact hasInk_pyJoin (textParts children)
        (textParts_hasInk children hwf2) hparts

theorem textParts_hasInk (l : List HTMLElement) (hwf : childrenElementWF l = true) :
    ∀ s ∈ textParts l, hasInk s = true := by
  cases l with
  | nil =>
    intro s hs
    unfold textParts at hs
    simp at hs
  | cons c cs =>
    have hwfc : elementWF c = true := by
      have := hwf
      unfold childrenElementWF at this
      exact bandLeft this
    have hwfcs : childrenElementWF cs = true := by
      have := hwf
      unfold childrenElementWF at this
      exact bandRight this
    intro s hs
    cases c with
    | mk ctag cattrs ccontent cch =>
      by_cases hct : ctag = "text"
      · have hstep : textParts (HTMLElement.mk ctag cattrs ccontent cch :: cs) =
            ccontent :: textParts cs := by
          simp only [textParts]
          rw [if_pos hct]
        rw [hstep] at hs
        rcases List.mem_cons.1 hs with hsc | hsr
        · subst hsc
          have := hwfc
          unfold elementWF at this
          have h1 := bandLeft this
          rw [if_pos hct] at h1
          exact h1
        · exact textParts_hasInk cs hwfcs s hsr
      · by_cases hte : getElementText (HTMLElement.mk ctag cattrs ccontent cch) = ""
        · have hstep : textParts (HTMLElement.mk ctag cattrs ccontent cch :: cs) =
              textParts cs := by
            simp only [textParts]
            rw [if_neg hct, if_pos hte]
          rw [hstep] at hs
          exact textParts_hasInk cs hwfcs s hs
        · have hstep : textParts (HTMLElement.mk ctag cattrs ccontent cch :: cs) =
              wrapChildText ctag
                (getElementText (HTMLElement.mk ctag cattrs ccontent cch)) ::
                textParts cs := by
            simp only [textParts]
            rw [if_neg hct, if_neg hte]
          rw [hstep] at hs
          rcases List.mem_cons.1 hs with hsc | hsr
          · subst hsc
            exact hasInk_wrap ctag _
              (getElementText_hasInk (HTMLElement.mk ctag cattrs ccontent cch) hwfc hte)
          · exact textParts_hasInk cs hwfcs s hsr

end

/-- C4 counterexample: the implementation conflates literal `<text>` markup
tags with its internal text-node sentinel.  Feeding
`<p><text></text><text></text></p>` builds a `p` whose two `text`-tagged
children have empty content; `_get_element_text` then joins two empty parts
into the single space `" "`, which is truthy, so the pipeline appends a
(visually blank) paragraph AND a spacer for a block whose trimmed text
content is empty. -/
theorem empty_trimmed_block_with_output :
    finalizeState (runEvents
      [HTMLEvent.starttag "p" [], HTMLEvent.starttag "text" [],
       HTMLEvent.endtag "text", HTMLEvent.starttag "text" [],
       HTMLEvent.endtag "text", HTMLEvent.endtag "p"]) =
      HTMLElement.mk "document" [] ""
        [HTMLElement.mk "p" [] ""
          [HTMLElement.mk "text" [] "" [], HTMLElement.mk "text" [] "" []]] ∧
    pyStrip (getElementText (HTMLElement.mk "p" [] ""
      [HTMLElement.mk "text" [] "" [], HTMLElement.mk "text" [] "" []])) = "" ∧
    addElementsToStory false (HTMLElement.mk "p" [] ""
      [HTMLElement.mk "text" [] "" [], HTMLElement.mk "text" [] "" []]) =
      [Flowable.paragraph " " "Normal" false, Flowable.spacer 1 6] := by
  refine ⟨rfl, by decide, by decide⟩

/-- C4 (amended): a heading or `p` block whose trimmed text content is
empty appends zero flowables to the story — no line, no spacer — provided
every `text`-kind descendant stores non-blank content, which is true of
every text node `handle_data` creates (it stores only stripped, non-blank
data) and rules out only elements coming from literal `<text>` markup
tags. -/
theorem empty_block_appends_nothing (kf : Bool) (e : HTMLElement)
    (htag : e.tag ∈ headingTags ∨ e.tag = "p")
    (hwf : elementWF e = true)
    (hempty : pyStrip (getElementText e) = "") :
    addElementsToStory kf e = [] := by
  have htext : getElementText e = "" := by
    by_contra hne
    have hink := getElementText_hasInk e hwf hne
    rw [pyStrip_eq_empty_iff] at hempty
    rw [hempty] at hink
    exact Bool.false_ne_true hink
  cases e with
  | mk tag attrs content children =>
    dsimp only [HTMLElement.tag] at htag
    have hnt : tag ≠ "text" := by
      rcases htag with h | h
      · intro hh
        subst hh
        simp [headingTags] at h
      · intro hh
        rw [hh] at h
        exact absurd h (by decide)
    rcases htag with h | h
    · simp only [addElementsToStory]
      rw [if_neg hnt, if_pos h, if_pos htext]
    · subst h
      simp [addElementsToStory, htext, headingTags]

/-- Witness for C4's amended theorem at the spec's own example `<p></p>`. -/
theorem empty_block_appends_nothing_witness :
    addElementsToStory false (HTMLElement.mk "p" [] "" []) = [] :=
  empty_block_appends_nothing false (HTMLElement.mk "p" [] "" [])
    (Or.inr rfl) (by decide) (by decide)

/-! ## Claim C6: trailing gaps after headings and paragraphs -/

/-- C6 counterexample: an `h2` block's trailing gap is `Spacer(1, 12)`,
although the built-in default style table lists `margin-bottom: 10pt` for
`h2` — the trailing gap does not equal the table's margin-bottom. -/
theorem heading_gap_ignores_margin_bottom :
    addElementsToStory false
      (HTMLElement.mk "h2" [] "" [HTMLElement.mk "text" [] "x" []]) =
      [Flowable.paragraph "x" "Heading2" false, Flowable.spacer 1 12] ∧
    (dictGet (default_styles false) "h2").bind
      (fun d => dictGet d "margin-bottom") = some "10pt" ∧
    (12 : Nat) ≠ 10 := by
  refine ⟨by decide, by decide, by decide⟩

/-- C6 (amended): every heading `h1`–`h6` that produced a line is followed
by a fixed `Spacer(1, 12)` and every non-empty `p` by a fixed
`Spacer(1, 6)`, regardless of the `margin-bottom` values in the default
style table (the style dicts are never consulted by the story builder). -/
theorem block_trailing_gap_fixed (kf : Bool) (e : HTMLElement) :
    (e.tag ∈ headingTags → getElementText e ≠ "" →
      addElementsToStory kf e =
        [Flowable.paragraph (getElementText e)
          ("Heading" ++ toString (headingLevel e.tag)) kf,
         Flowable.spacer 1 12]) ∧
    (e.tag = "p" → getElementText e ≠ "" →
      addElementsToStory kf e =
        [Flowable.paragraph (getElementText e) "Normal" kf,
         Flowable.spacer 1 6]) := by
  cases e with
  | mk tag attrs content children =>
    constructor
    · intro htag hne
      dsimp only [HTMLElement.tag] at htag ⊢
      have hnt : tag ≠ "text" := by
        intro hh
        subst hh
        simp [headingTags] at htag
      have hle : headingLevel tag ≤ 6 := by
        have h7 := htag
        simp [headingTags] at h7
        rcases h7 with h | h | h | h | h | h
        all_goals (subst h; decide)
      simp only [addElementsToStory]
      rw [if_neg hnt, if_pos htag, if_neg hne, if_pos hle]
    · intro htag hne
      dsimp only [HTMLElement.tag] at htag
      subst htag
      simp [addElementsToStory, headingTags, hne]

/-- Witness for C6's amended theorem at a concrete `h3` and its text. -/
theorem block_trailing_gap_fixed_witness :
    addElementsToStory false
      (HTMLElement.mk "h3" [] "" [HTMLElement.mk "text" [] "y" []]) =
      [Flowable.paragraph "y" "Heading3" false, Flowable.spacer 1 12] := by
  have h := (block_trailing_gap_fixed false
    (HTMLElement.mk "h3" [] "" [HTMLElement.mk "text" [] "y" []])).1
    (by decide) (by decide)
  exact h.trans (by decide)
